import Mathlib

/-!
Verification of the `qjs-derive-support` token rewriter.

The development shallowly embeds `src/qjs-derive-support/src/lib.rs`:
proc-macro2 token trees become the inductive `Tok`, the grammar layer
(`Eval`, `WithContext`, `Closure`, `Captures`, `Item`) becomes cursor-style
parsing functions over `List Tok`, the code generator `js` becomes a pure
function to a token list, and the interpolation engine `interpolate`
becomes a recursive function threading the capture accumulator.

External `syn` / `proc-macro2` primitives that the crate calls (FnArg
parsing, Type parsing, `parse2::<Expr>`) are not code of this repository;
they are abstracted as parameters (`SynEnv`, `pe`) so every theorem holds
for every behaviour of those collaborators, and witnesses instantiate them
with small concrete parsers.
-/

namespace RustQjs

/-- Delimiters of proc-macro2 groups (`Delimiter`). -/
inductive Delim : Type
  | paren
  | bracket
  | brace
  | bare
deriving DecidableEq

/-- Spacing of proc-macro2 punctuation (`Spacing::Alone` / `Spacing::Joint`). -/
inductive Spacing : Type
  | alone
  | joint
deriving DecidableEq

/-- A proc-macro2 `TokenTree`: a delimited group, an identifier (keywords
included, as in proc-macro2), a punctuation character with its spacing, or a
literal carried as its display text. -/
inductive Tok : Type
  | group : Delim → List Tok → Tok
  | ident : String → Tok
  | punct : Char → Spacing → Tok
  | lit : String → Tok

/-- The guard of the first match arm of `interpolate`:
`punct.as_char() == '#' && punct.spacing() == Spacing::Alone`. -/
def isMarker : Tok → Bool
  | .punct c sp => c = '#' && sp = Spacing.alone
  | _ => false

/-- The `Variable` enum of the crate: a spliced bare identifier, or the
expression parsed from a parenthesized splice (the expression type is the
abstract result of the external `syn` expression parser). -/
inductive Variable (E : Type) : Type
  | ident : String → Variable E
  | expr : E → Variable E
deriving DecidableEq

/-- Tokens of `quote! { __scope.#var }` with `var = "var" ++ n`:
the placeholder substituted for the n-th splice. -/
def placeholder (n : Nat) : List Tok :=
  [Tok.ident "__scope", Tok.punct '.' Spacing.alone, Tok.ident ("var" ++ toString n)]

/-- The loop of `interpolate`, with the mutable locals made explicit:
`arm` is the `interpolating` one-token lookback flag (holding the pending
marker punct), `vars` the shared capture accumulator.  `pe` abstracts
`syn::parse2::<Expr>` applied to the stream of an armed parenthesized group.
The match arms are in source order: marker, armed identifier, armed
parenthesized group, any other group (recursed into with a fresh flag and
the same accumulator), catch-all (re-emit a pending marker, then the token,
and clear the flag).  Note that, as in the source, the armed identifier and
armed parenthesized-group arms leave the flag untouched. -/
def interpGo {ε E : Type} (pe : List Tok → Except ε E) :
    List Tok → Option Tok → List (Variable E) → Except ε (List Tok × List (Variable E))
  | [], _, vars => .ok ([], vars)
  | t :: rest, arm, vars =>
    if isMarker t then
      interpGo pe rest (some t) vars
    else
      match t, arm with
      | .ident s, some _ => do
        let (out, vars') ← interpGo pe rest arm (vars ++ [Variable.ident s])
        pure (placeholder vars.length ++ out, vars')
      | .group .paren g, some _ => do
        let e ← pe g
        let (out, vars') ← interpGo pe rest arm (vars ++ [Variable.expr e])
        pure (placeholder vars.length ++ out, vars')
      | .group d g, _ => do
        let (inner, vars1) ← interpGo pe g none vars
        let (out, vars') ← interpGo pe rest arm vars1
        pure (Tok.group d inner :: out, vars')
      | _, _ => do
        let (out, vars') ← interpGo pe rest none vars
        pure (arm.toList ++ t :: out, vars')
termination_by ts _ _ => sizeOf ts
decreasing_by all_goals (simp_wf <;> omega)

/-- `interpolate(input, vars)`: runs the loop with the flag initially unset
(`let mut interpolating = None`). -/
def interpolate {ε E : Type} (pe : List Tok → Except ε E)
    (input : List Tok) (vars : List (Variable E)) :
    Except ε (List Tok × List (Variable E)) :=
  interpGo pe input none vars

/-- Opening and closing display text of a group delimiter. -/
def delimPair : Delim → String × String
  | .paren => ("(", ")")
  | .bracket => ("[", "]")
  | .brace => ("\x7b", "\x7d")
  | .bare => ("", "")

/-- Whether a token is a punct with `Spacing::Joint` (the proc-macro2
`Display` impl omits the separating space after such a token). -/
def isJointPunct : Tok → Bool
  | .punct _ sp => sp = Spacing.joint
  | _ => false

mutual

/-- Display text of one token tree, after the proc-macro2 fallback `Display`
used by `TokenStream::to_string()` in the crate: a non-empty group prints its
delimiters padded with single spaces around the inner stream. -/
def tokStr : Tok → String
  | .group d ts =>
    if ts.isEmpty then (delimPair d).1 ++ (delimPair d).2
    else (delimPair d).1 ++ " " ++ tsStrGo ts true ++ " " ++ (delimPair d).2
  | .ident s => s
  | .punct c _ => String.singleton c
  | .lit s => s

/-- Display text of a token stream: tokens separated by single spaces, except
that no space follows a `Joint`-spaced punct.  The flag suppresses the space
before the current token. -/
def tsStrGo : List Tok → Bool → String
  | [], _ => ""
  | t :: rest, noSpace =>
    (if noSpace then "" else " ") ++ tokStr t ++ tsStrGo rest (isJointPunct t)

end

/-- `TokenStream::to_string()` of a token list. -/
def tsToString (ts : List Tok) : String :=
  tsStrGo ts true

/-- Characters escaped by `Literal::string` when a `String` is interpolated
into `quote!` output (quote and backslash). -/
def escapeChar (c : Char) : String :=
  if c = '"' ∨ c = '\\' then "\\" ++ String.singleton c else String.singleton c

/-- Escape a string for inclusion in a string-literal token. -/
def escapeStr (s : String) : String :=
  String.join (s.toList.map escapeChar)

/-- The string-literal token produced when a `String` value is interpolated
by `quote!` (via `Literal::string`). -/
def strLit (s : String) : Tok :=
  Tok.lit ("\"" ++ escapeStr s ++ "\"")

/-- Rust strict keywords: `syn`'s `Ident` parse and peek reject these, so the
`ident => …` context lookahead of `Eval` and the capture-list identifiers do
not fire on them. -/
def isRustKeyword (s : String) : Bool :=
  (["as", "async", "await", "break", "const", "continue", "crate", "dyn",
    "else", "enum", "extern", "false", "fn", "for", "if", "impl", "in",
    "let", "loop", "match", "mod", "move", "mut", "pub", "ref", "return",
    "self", "Self", "static", "struct", "super", "trait", "true", "type",
    "unsafe", "use", "where", "while"] : List String).contains s

/-- The `Eval` grammar node: an optional context identifier (the `ident` of
`WithContext`, whose `=>` token carries no information) and the raw remaining
script tokens. -/
structure Eval where
  context : Option String
  script : List Tok

/-- `Eval::parse`: the context is present exactly when
`input.peek(syn::Ident) && input.peek2(FatArrow)` holds, i.e. when the stream
starts with a non-keyword identifier followed by the two puncts of `=>`; the
script is the whole remaining stream (`TokenStream`'s `Parse` impl), so this
parse never fails and never leaves input behind. -/
def parseEval (ts : List Tok) : Eval :=
  match ts with
  | Tok.ident s :: Tok.punct '=' Spacing.joint :: Tok.punct '>' _ :: rest =>
    if isRustKeyword s then ⟨none, ts⟩ else ⟨some s, rest⟩
  | _ => ⟨none, ts⟩

/-- The `Captures` node: the identifiers inside the bracketed list. -/
structure Captures where
  inputs : List String

/-- `Punctuated::<Ident, Comma>::parse_terminated` on the contents of the
capture brackets: a comma-separated identifier list, empty and
trailing-comma forms allowed, keywords rejected. -/
def parseTerminatedIdents : List Tok → Except Unit (List String)
  | [] => .ok []
  | Tok.ident s :: rest =>
    if isRustKeyword s then .error ()
    else
      match rest with
      | [] => .ok [s]
      | Tok.punct ',' _ :: rest' => do
        let more ← parseTerminatedIdents rest'
        pure (s :: more)
      | _ => .error ()
  | _ => .error ()

/-- Interface to the external `syn` primitives used by the `Closure` grammar
and by `quote!` in the generator.  `parseFnArgs` abstracts
`Punctuated::<FnArg, Comma>::parse_terminated` on the parameter parentheses,
`fnArgPatIdent` the `FnArg::Captured(… Pat::Ident …)` pattern match of the
generator (returning the bound identifier for a simple binding and `none`
otherwise), `fnArgToks` / `retToks` the `ToTokens` rendering used by
`quote!`, and `parseRet` the `ReturnType` parse consuming `-> Type`. -/
structure SynEnv : Type 1 where
  FnArgT : Type
  RetT : Type
  parseFnArgs : List Tok → Except Unit (List FnArgT)
  fnArgPatIdent : FnArgT → Option String
  fnArgToks : FnArgT → List Tok
  parseRet : List Tok → Except Unit (RetT × List Tok)
  retToks : RetT → List Tok

/-- The `Closure` grammar node (pure-data fields only: the `paren_token` and
`fat_arrow_token` carry no information, and `brace_token` is kept as a flag). -/
structure Closure (env : SynEnv) where
  captures : Option Captures
  params : List env.FnArgT
  output : Option env.RetT
  braceToken : Bool
  script : List Tok

/-- `input.peek(RArrow)`: the stream starts with the two puncts of `->`. -/
def peekRArrow : List Tok → Bool
  | Tok.punct '-' Spacing.joint :: Tok.punct '>' _ :: _ => true
  | _ => false

/-- Parse of the `FatArrow` token `=>` (two puncts, the first joint). -/
def parseFatArrow : List Tok → Except Unit (List Tok)
  | Tok.punct '=' Spacing.joint :: Tok.punct '>' _ :: rest => .ok rest
  | _ => .error ()

/-- `Closure::parse`: optional bracketed captures (`input.peek(Bracket)`),
a mandatory parenthesized parameter list, an optional `-> Type` return
annotation (`input.peek(RArrow)`), the `=>` separator, and then either a
braced script block or the whole remaining stream as the script. -/
def parseClosure (env : SynEnv) (ts : List Tok) :
    Except Unit (Closure env × List Tok) := do
  let (captures, ts1) ←
    match ts with
    | Tok.group Delim.bracket g :: rest => do
      let ids ← parseTerminatedIdents g
      pure (some (Captures.mk ids), rest)
    | _ => pure ((none : Option Captures), ts)
  match ts1 with
  | Tok.group Delim.paren g :: rest => do
    let params ← env.parseFnArgs g
    let (output, rest1) ←
      if peekRArrow rest then do
        let (r, rest') ← env.parseRet rest
        pure (some r, rest')
      else
        pure ((none : Option env.RetT), rest)
    let rest2 ← parseFatArrow rest1
    match rest2 with
    | Tok.group Delim.brace g' :: rest3 =>
      pure (⟨captures, params, output, true, g'⟩, rest3)
    | _ =>
      pure (⟨captures, params, output, false, rest2⟩, ([] : List Tok))
  | _ => .error ()

/-- The `Item` sum type. -/
inductive Item (env : SynEnv) : Type
  | eval : Eval → Item env
  | closure : Closure env → Item env

/-- `Item::parse`: speculatively parse a `Closure` on a fork of the cursor
and commit to the `Closure` branch exactly when it succeeds, otherwise parse
an `Eval`.  The parser is a pure function, so the forked attempt and the
committed parse are the same call and the failed attempt leaves the input
untouched. -/
def itemParse (env : SynEnv) (ts : List Tok) :
    Except Unit (Item env × List Tok) :=
  match parseClosure env ts with
  | .ok (c, rest) => .ok (Item.closure c, rest)
  | .error _ => .ok (Item.eval (parseEval ts), [])

/-- `syn::parse2::<Item>`: run `Item::parse` and then require the input to be
exhausted, anything left over being an error. -/
def parse2Item (env : SynEnv) (ts : List Tok) : Except Unit (Item env) := do
  let (item, rest) ← itemParse env ts
  if rest.isEmpty then pure item else .error ()

/-- Tokens of the `qjs::` path prefix produced by `quote!`. -/
def qjsPathToks : List Tok :=
  [Tok.ident "qjs", Tok.punct ':' Spacing.joint, Tok.punct ':' Spacing.alone]

/-- The `Eval` branch of `js`: `quote! { #context eval(#script) }`, where the
context renders as `qjs::` (default entry point) or `ident.` (context-scoped
receiver), and the stringified script becomes the literal argument. -/
def evalGen (e : Eval) : List Tok :=
  (match e.context with
   | none => qjsPathToks
   | some id => [Tok.ident id, Tok.punct '.' Spacing.alone]) ++
  [Tok.ident "eval", Tok.group Delim.paren [strLit (tsToString e.script)]]

/-- Parameter token lists joined by the comma separators of `#(#params),*`. -/
def sepByComma : List (List Tok) → List Tok
  | [] => []
  | [x] => x
  | x :: xs => x ++ Tok.punct ',' Spacing.alone :: sepByComma xs

/-- The `format!("function({}) {{ {} }}", names.join(", "), script)` string of
the `Closure` branch. -/
def closureScript (names : List String) (scriptText : String) : String :=
  "function(" ++ String.intercalate ", " names ++ ") \x7b " ++ scriptText ++ " \x7d"

/-- The `Closure` branch of `js`:
`quote! { | #(#params),* | #output { qjs::eval(#script) } }`, where the
synthesized script string keeps only the parameters whose pattern is a simple
identifier binding (the others are skipped with a warning by the `flat_map`). -/
def closureGen (env : SynEnv) (c : Closure env) : List Tok :=
  [Tok.punct '|' Spacing.alone] ++ sepByComma (c.params.map env.fnArgToks) ++
  [Tok.punct '|' Spacing.alone] ++
  (match c.output with
   | none => []
   | some r => env.retToks r) ++
  [Tok.group Delim.brace
    (qjsPathToks ++
     [Tok.ident "eval",
      Tok.group Delim.paren
        [strLit (closureScript (c.params.filterMap env.fnArgPatIdent)
          (tsToString c.script))]])]

/-- The public `js` transformation: `syn::parse2::<Item>` then the branch of
the generator matching the parsed node. -/
def js (env : SynEnv) (ts : List Tok) : Except Unit (List Tok) :=
  match parse2Item env ts with
  | .error e => .error e
  | .ok (Item.eval ev) => .ok (evalGen ev)
  | .ok (Item.closure c) => .ok (closureGen env c)

/-- Placeholder variables substituted into a token stream, in traversal
order: every `__scope . v` triple contributes its field identifier `v`, and
groups are traversed in place.  Used to state the indexing property of the
interpolation engine. -/
def phVars : List Tok → List String
  | Tok.ident "__scope" :: Tok.punct '.' _ :: Tok.ident v :: rest => v :: phVars rest
  | Tok.group _ g :: rest => phVars g ++ phVars rest
  | _ :: rest => phVars rest
  | [] => []
termination_by ts => sizeOf ts
decreasing_by all_goals (simp_wf <;> omega)

mutual

/-- Whether a token contains no identifier spelled `__scope` (so every
`__scope` in interpolation output comes from a substituted placeholder). -/
def scopeFreeTok : Tok → Bool
  | Tok.group _ g => scopeFreeList g
  | Tok.ident s => !(s = "__scope")
  | _ => true

/-- `scopeFreeTok` over a token list. -/
def scopeFreeList : List Tok → Bool
  | [] => true
  | t :: rest => scopeFreeTok t && scopeFreeList rest

end

/-- An expression parser that never succeeds; usable where the claims under
test never reach the parenthesized-splice arm. -/
def peU : List Tok → Except Unit Unit :=
  fun _ => .error ()

/-- A concrete expression parser accepting exactly the one-token streams, so
a two-token group body is "not a single valid expression". -/
def peOne : List Tok → Except Unit Tok
  | [t] => .ok t
  | _ => .error ()

/-- Toy splitter for the concrete `SynEnv` instantiation: splits a token list
at top-level commas. -/
def splitArgsGo : List Tok → List Tok → List (List Tok)
  | [], acc => [acc.reverse]
  | Tok.punct ',' _ :: rest, acc => acc.reverse :: splitArgsGo rest []
  | t :: rest, acc => splitArgsGo rest (t :: acc)

/-- Toy comma-splitting of a parameter list (empty list for no tokens). -/
def splitArgs : List Tok → List (List Tok)
  | [] => []
  | ts => splitArgsGo ts []

/-- A small concrete instantiation of the external-parser interface, used by
the witnesses: a parameter is its raw token list, a simple binding is a
parameter starting with an identifier, and a return annotation is `->`
followed by one token. -/
def toyEnv : SynEnv where
  FnArgT := List Tok
  RetT := List Tok
  parseFnArgs ts := .ok (splitArgs ts)
  fnArgPatIdent a :=
    match a with
    | Tok.ident s :: _ => some s
    | _ => none
  fnArgToks a := a
  parseRet ts :=
    match ts with
    | Tok.punct '-' Spacing.joint :: Tok.punct '>' sp :: t :: rest =>
      .ok ([Tok.punct '-' Spacing.joint, Tok.punct '>' sp, t], rest)
    | _ => .error ()
  retToks r := r

/-- The `(n: usize) -> usize => { n+1 }` input of the crate's test suite,
used by the closure-generation witnesses. -/
def sampleClosureInput : List Tok :=
  [Tok.group Delim.paren [Tok.ident "n", Tok.punct ':' Spacing.alone, Tok.ident "usize"],
   Tok.punct '-' Spacing.joint, Tok.punct '>' Spacing.alone, Tok.ident "usize",
   Tok.punct '=' Spacing.joint, Tok.punct '>' Spacing.alone,
   Tok.group Delim.brace [Tok.ident "n", Tok.punct '+' Spacing.alone, Tok.lit "1"]]

/-- The `Closure` node parsed from `sampleClosureInput` under `toyEnv`. -/
def sampleClosureNode : Closure toyEnv :=
  ⟨none,
   [[Tok.ident "n", Tok.punct ':' Spacing.alone, Tok.ident "usize"]],
   some [Tok.punct '-' Spacing.joint, Tok.punct '>' Spacing.alone, Tok.ident "usize"],
   true,
   [Tok.ident "n", Tok.punct '+' Spacing.alone, Tok.lit "1"]⟩

/-- The tokens of `print(#name)`: an eval script containing a recognized
splice-marker form. -/
def spliceEvalInput : List Tok :=
  [Tok.ident "print",
   Tok.group Delim.paren [Tok.punct '#' Spacing.alone, Tok.ident "name"]]

/-- Helper: a fallible pair-valued computation succeeds exactly when it
returns some concrete pair. -/
theorem isOk_exists {ε α β : Type} (x : Except ε (α × β)) :
    x.isOk = true ↔ ∃ a b, x = .ok (a, b) := by
  cases x with
  | ok v => obtain ⟨a, b⟩ := v; simp [Except.isOk, Except.toBool]
  | error e => simp [Except.isOk, Except.toBool]

/-- Unfolding lemma: a substituted placeholder contributes exactly its
`var<n>` field name to `phVars`. -/
theorem phVars_placeholder (n : Nat) (rest : List Tok) :
    phVars (placeholder n ++ rest) = ("var" ++ toString n) :: phVars rest := by
  simp [placeholder, phVars]

/-- Unfolding lemma: a group contributes its recursively collected
placeholders in place. -/
theorem phVars_group (d : Delim) (g rest : List Tok) :
    phVars (Tok.group d g :: rest) = phVars g ++ phVars rest := by
  simp [phVars]

/-- Unfolding lemma: a non-group token that is not the identifier `__scope`
contributes nothing to `phVars`. -/
theorem phVars_skip (t : Tok) (rest : List Tok)
    (hg : ∀ d g, t ≠ Tok.group d g) (hs : t ≠ Tok.ident "__scope") :
    phVars (t :: rest) = phVars rest := by
  match t, rest with
  | Tok.group d g, rest => exact absurd rfl (hg d g)
  | Tok.punct c sp, rest => simp [phVars]
  | Tok.lit s, rest => simp [phVars]
  | Tok.ident s, [] => simp [phVars]
  | Tok.ident s, [t'] => simp [phVars]
  | Tok.ident s, Tok.punct c sp :: Tok.ident v :: rest' =>
    have : s ≠ "__scope" := fun h => hs (by rw [h])
    simp [phVars, this]
  | Tok.ident s, Tok.punct c sp :: Tok.group d g :: rest' => simp [phVars]
  | Tok.ident s, Tok.punct c sp :: Tok.punct c' sp' :: rest' => simp [phVars]
  | Tok.ident s, Tok.punct c sp :: Tok.lit l :: rest' => simp [phVars]
  | Tok.ident s, Tok.ident i :: rest' => simp [phVars]
  | Tok.ident s, Tok.group d g :: rest' => simp [phVars]
  | Tok.ident s, Tok.lit l :: rest' => simp [phVars]

/-- C1: the claim says the armed splice-marker state is disarmed immediately
after the token following a standalone `#`, so in `# a b` only `a` is
captured and `b` is emitted verbatim.  The code does not clear
`interpolating` in the identifier-splice arm, so on `# a b` the identifier
`b` is also recognized as a splice: the output is the two placeholders
`__scope.var0 __scope.var1` and the capture list gains entries for both `a`
and `b`, contradicting the claim. -/
theorem interpolate_not_disarmed_after_ident_splice :
    interpolate peU [Tok.punct '#' Spacing.alone, Tok.ident "a", Tok.ident "b"] []
      = .ok (placeholder 0 ++ placeholder 1,
        [Variable.ident "a", Variable.ident "b"]) := by
  simp [interpolate, interpGo, isMarker, placeholder, Except.bind, bind, pure, Except.pure]

/-- C2: the claim says a standalone `#` followed by a token that is neither a
bare identifier nor a parenthesized group is re-emitted verbatim together
with that token.  The code violates this for two such followers: a bracketed
group falls into the plain-group arm, which recurses without re-emitting the
pending marker (so `# [1]` loses the `#`), and another standalone `#`
replaces the pending marker (so `# #` emits nothing at all). -/
theorem interpolate_marker_dropped_before_bracket_group :
    interpolate peU [Tok.punct '#' Spacing.alone, Tok.group Delim.bracket [Tok.lit "1"]] []
      = .ok ([Tok.group Delim.bracket [Tok.lit "1"]], [])
    ∧ interpolate peU [Tok.punct '#' Spacing.alone, Tok.punct '#' Spacing.alone] []
      = .ok ([], []) := by
  constructor <;>
    simp [interpolate, interpGo, isMarker, Except.bind, bind, pure, Except.pure]

/-- C9: the claim says `interpolate` fails only when a parenthesized group
immediately following a standalone `#` does not parse as a single
expression.  Because the identifier-splice arm does not disarm the marker,
the stale armed state makes the engine apply the expression parser to a
parenthesized group that does not immediately follow any `#`: with a parser
accepting exactly single-token streams, `# a (1 1)` is rejected even though
`(1 1)` is not a splice target, while the same group with no marker anywhere
before it is passed through untouched. -/
theorem interpolate_error_from_stale_marker :
    interpolate peOne [Tok.punct '#' Spacing.alone, Tok.ident "a",
        Tok.group Delim.paren [Tok.lit "1", Tok.lit "1"]] []
      = .error ()
    ∧ interpolate peOne [Tok.ident "a",
        Tok.group Delim.paren [Tok.lit "1", Tok.lit "1"]] []
      = .ok ([Tok.ident "a", Tok.group Delim.paren [Tok.lit "1", Tok.lit "1"]], []) := by
  constructor <;>
    simp [interpolate, interpGo, isMarker, peOne, Except.bind, bind, pure, Except.pure]

/-- C10 counterexample: `js` is not total.  On `() => {} x` the speculative
`Closure` parse succeeds consuming only `() => {}`, `Item::parse` commits to
the `Closure` branch, and `syn::parse2` then rejects the leftover token `x`,
so the public transformation returns a grammar error. -/
theorem js_error_on_trailing_tokens_cex :
    js toyEnv [Tok.group Delim.paren [], Tok.punct '=' Spacing.joint,
      Tok.punct '>' Spacing.alone, Tok.group Delim.brace [], Tok.ident "x"]
      = .error () := by
  rfl

/-- C10 amended: `js` succeeds on every input except exactly those on which
the `Closure` grammar parses successfully while leaving input behind (a
braced script block followed by trailing tokens); there the exhaustiveness
check of `syn::parse2` reports the leftover as a grammar error. -/
theorem js_error_iff_closure_leftover (env : SynEnv) (ts : List Tok) :
    js env ts = .error () ↔
      ∃ c rest, parseClosure env ts = .ok (c, rest) ∧ rest ≠ [] := by
  cases h : parseClosure env ts with
  | ok v =>
    obtain ⟨c, rest⟩ := v
    cases rest with
    | nil =>
      simp only [js, parse2Item, itemParse, h, Except.bind, bind, pure, Except.pure,
        List.isEmpty_nil, if_true]
      constructor
      · intro hx; cases hx
      · rintro ⟨c', rest', hcr, hne⟩
        simp only [Except.ok.injEq, Prod.mk.injEq] at hcr
        exact (hne hcr.2.symm).elim
    | cons t rest' =>
      simp only [js, parse2Item, itemParse, h, Except.bind, bind, pure, Except.pure,
        List.isEmpty_cons, if_false]
      constructor
      · intro _; exact ⟨c, t :: rest', rfl, by simp⟩
      · intro _; rfl
  | error e =>
    simp only [js, parse2Item, itemParse, h, Except.bind, bind, pure, Except.pure,
      List.isEmpty_nil, if_true]
    constructor
    · intro hx; cases hx
    · rintro ⟨c', rest', hcr, hne⟩
      simp at hcr

/-- C4: `Item` classification.  An input is classified `Closure` precisely
when the speculative `Closure` parse succeeds (the fork being pure, a failed
attempt leaves the input untouched); in particular any input beginning with a
parenthesized parameter list followed by the `=>` separator is classified
`Closure`, and whenever the speculative parse fails the whole original input
is parsed as an `Eval` (which always succeeds and consumes everything). -/
theorem item_classification (env : SynEnv) :
    (∀ ts : List Tok,
      (∃ c rest, itemParse env ts = .ok (Item.closure c, rest)) ↔
        (parseClosure env ts).isOk = true)
    ∧ (∀ (g : List Tok) (sp : Spacing) (rest : List Tok) (ps : List env.FnArgT),
        env.parseFnArgs g = .ok ps →
        ∃ c rest', itemParse env (Tok.group Delim.paren g :: Tok.punct '=' Spacing.joint ::
          Tok.punct '>' sp :: rest) = .ok (Item.closure c, rest'))
    ∧ (∀ (ts : List Tok) (e : Unit), parseClosure env ts = .error e →
        itemParse env ts = .ok (Item.eval (parseEval ts), [])) := by
  refine ⟨?_, ?_, ?_⟩
  · intro ts
    cases h : parseClosure env ts with
    | ok v =>
      obtain ⟨c, rest⟩ := v
      simp [itemParse, h, Except.isOk, Except.toBool]
    | error e =>
      simp [itemParse, h, Except.isOk, Except.toBool]
  · intro g sp rest ps hps
    have hpk : peekRArrow (Tok.punct '=' Spacing.joint :: Tok.punct '>' sp :: rest)
        = false := rfl
    have hfa : parseFatArrow (Tok.punct '=' Spacing.joint :: Tok.punct '>' sp :: rest)
        = .ok rest := rfl
    have hok : ∃ c rest', parseClosure env (Tok.group Delim.paren g ::
        Tok.punct '=' Spacing.joint :: Tok.punct '>' sp :: rest) = .ok (c, rest') := by
      simp only [parseClosure, hps, hpk, hfa, Except.bind, bind, pure, Except.pure,
        Bool.false_eq_true, if_false]
      split
      · exact ⟨_, _, rfl⟩
      · exact ⟨_, _, rfl⟩
    obtain ⟨c, rest', hc⟩ := hok
    exact ⟨c, rest', by simp [itemParse, hc]⟩
  · intro ts e h
    simp [itemParse, h]

/-- C4 witness: under the toy environment, `() => 1+2` (a parenthesized
parameter list, then `=>`) is classified `Closure`, and `1+2` (whose
speculative `Closure` parse fails at the missing parentheses) is classified
`Eval` on the untouched input. -/
theorem item_classification_witness :
    (∃ c rest', itemParse toyEnv [Tok.group Delim.paren [], Tok.punct '=' Spacing.joint,
      Tok.punct '>' Spacing.alone, Tok.lit "1", Tok.punct '+' Spacing.alone, Tok.lit "2"]
      = .ok (Item.closure c, rest'))
    ∧ itemParse toyEnv [Tok.lit "1", Tok.punct '+' Spacing.alone, Tok.lit "2"]
      = .ok (Item.eval (parseEval [Tok.lit "1", Tok.punct '+' Spacing.alone, Tok.lit "2"]), []) := by
  constructor
  · exact (item_classification toyEnv).2.1 [] Spacing.alone
      [Tok.lit "1", Tok.punct '+' Spacing.alone, Tok.lit "2"] [] rfl
  · exact (item_classification toyEnv).2.2
      [Tok.lit "1", Tok.punct '+' Spacing.alone, Tok.lit "2"] () rfl

/-- C5: `Eval` context detection and generation.  An input of the exact
shape `ident => rest` (non-keyword identifier, then the two puncts of `=>`)
parses with `context = some ident` and `script = rest` verbatim, and `js`
emits `ident.eval("<stringified rest>")`; an input not of that shape parses
with `context = none` and the script equal to the whole input, and (when it
is classified `Eval`) `js` emits `qjs::eval("<stringified input>")`. -/
theorem eval_context_detection (env : SynEnv) :
    (∀ (s : String) (sp : Spacing) (rest : List Tok), isRustKeyword s = false →
      parseEval (Tok.ident s :: Tok.punct '=' Spacing.joint :: Tok.punct '>' sp :: rest)
        = ⟨some s, rest⟩
      ∧ js env (Tok.ident s :: Tok.punct '=' Spacing.joint :: Tok.punct '>' sp :: rest)
        = .ok ([Tok.ident s, Tok.punct '.' Spacing.alone, Tok.ident "eval",
            Tok.group Delim.paren [strLit (tsToString rest)]]))
    ∧ (∀ ts : List Tok,
        (∀ (s : String) (sp : Spacing) (rest : List Tok),
          ts = Tok.ident s :: Tok.punct '=' Spacing.joint :: Tok.punct '>' sp :: rest →
          isRustKeyword s = true) →
        parseEval ts = ⟨none, ts⟩
        ∧ ((parseClosure env ts).isOk = false →
            js env ts = .ok (qjsPathToks ++ [Tok.ident "eval",
              Tok.group Delim.paren [strLit (tsToString ts)]]))) := by
  constructor
  · intro s sp rest hkw
    have hpc : parseClosure env (Tok.ident s :: Tok.punct '=' Spacing.joint ::
        Tok.punct '>' sp :: rest) = .error () := by
      simp [parseClosure, Except.bind, bind, pure, Except.pure]
    refine ⟨by simp [parseEval, hkw], ?_⟩
    simp [js, parse2Item, itemParse, hpc, parseEval, hkw, evalGen,
      Except.bind, bind, pure, Except.pure]
  · intro ts hshape
    have hpe : parseEval ts = ⟨none, ts⟩ := by
      unfold parseEval
      split
      · rename_i s sp rest
        simp [hshape s sp rest rfl]
      · rfl
    refine ⟨hpe, ?_⟩
    intro hnc
    cases h : parseClosure env ts with
    | ok v =>
      rw [h] at hnc
      simp [Except.isOk, Except.toBool] at hnc
    | error e =>
      simp [js, parse2Item, itemParse, h, hpe, evalGen,
        Except.bind, bind, pure, Except.pure]

/-- C5 witness: `ctxt => 1+2` yields context `ctxt`, script `1+2` and the
output `ctxt.eval("1 + 2")`; the patternless input `1+2` yields no context,
the whole input as script, and the output `qjs::eval("1 + 2")`. -/
theorem eval_context_detection_witness :
    (parseEval [Tok.ident "ctxt", Tok.punct '=' Spacing.joint, Tok.punct '>' Spacing.alone,
        Tok.lit "1", Tok.punct '+' Spacing.alone, Tok.lit "2"]
      = ⟨some "ctxt", [Tok.lit "1", Tok.punct '+' Spacing.alone, Tok.lit "2"]⟩
      ∧ js toyEnv [Tok.ident "ctxt", Tok.punct '=' Spacing.joint, Tok.punct '>' Spacing.alone,
          Tok.lit "1", Tok.punct '+' Spacing.alone, Tok.lit "2"]
        = .ok ([Tok.ident "ctxt", Tok.punct '.' Spacing.alone, Tok.ident "eval",
            Tok.group Delim.paren [strLit (tsToString [Tok.lit "1",
              Tok.punct '+' Spacing.alone, Tok.lit "2"])]]))
    ∧ (parseEval [Tok.lit "1", Tok.punct '+' Spacing.alone, Tok.lit "2"]
        = ⟨none, [Tok.lit "1", Tok.punct '+' Spacing.alone, Tok.lit "2"]⟩
      ∧ ((parseClosure toyEnv [Tok.lit "1", Tok.punct '+' Spacing.alone, Tok.lit "2"]).isOk = false →
          js toyEnv [Tok.lit "1", Tok.punct '+' Spacing.alone, Tok.lit "2"]
            = .ok (qjsPathToks ++ [Tok.ident "eval",
                Tok.group Delim.paren [strLit (tsToString [Tok.lit "1",
                  Tok.punct '+' Spacing.alone, Tok.lit "2"])]]))) := by
  constructor
  · exact (eval_context_detection toyEnv).1 "ctxt" Spacing.alone
      [Tok.lit "1", Tok.punct '+' Spacing.alone, Tok.lit "2"] rfl
  · exact (eval_context_detection toyEnv).2
      [Tok.lit "1", Tok.punct '+' Spacing.alone, Tok.lit "2"]
      (by intro s sp rest h; simp at h)

/-- C6: `Closure` generation.  Whenever an input parses as a `Closure`
(consuming everything), `js` emits the closure literal
`| params | output { qjs::eval("function(names) { script }") }`: the
parameter tokens and the optional return annotation are the `ToTokens`
renderings of the parsed nodes (commas re-inserted between parameters),
`names` is the comma-joined list of the simple-identifier parameter names in
order, and the script text is the verbatim stringification of the script
tokens. -/
theorem closure_generation_shape (env : SynEnv) (ts : List Tok) (c : Closure env)
    (h : parseClosure env ts = .ok (c, [])) :
    js env ts = .ok
      ([Tok.punct '|' Spacing.alone] ++ sepByComma (c.params.map env.fnArgToks) ++
       [Tok.punct '|' Spacing.alone] ++
       (match c.output with
        | none => []
        | some r => env.retToks r) ++
       [Tok.group Delim.brace (qjsPathToks ++ [Tok.ident "eval",
          Tok.group Delim.paren [strLit ("function(" ++
            String.intercalate ", " (c.params.filterMap env.fnArgPatIdent) ++
            ") \x7b " ++ tsToString c.script ++ " \x7d")]])]) := by
  simp [js, parse2Item, itemParse, h, closureGen, closureScript,
    Except.bind, bind, pure, Except.pure]

/-- C6 witness: `(n: usize) -> usize => { n+1 }` generates
`|n : usize| -> usize { qjs::eval("function(n) { n + 1 }") }`, matching the
crate's own test. -/
theorem closure_generation_shape_witness :
    parseClosure toyEnv sampleClosureInput = .ok (sampleClosureNode, [])
    ∧ js toyEnv sampleClosureInput = .ok
        ([Tok.punct '|' Spacing.alone, Tok.ident "n", Tok.punct ':' Spacing.alone,
          Tok.ident "usize", Tok.punct '|' Spacing.alone, Tok.punct '-' Spacing.joint,
          Tok.punct '>' Spacing.alone, Tok.ident "usize",
          Tok.group Delim.brace (qjsPathToks ++ [Tok.ident "eval",
            Tok.group Delim.paren [strLit "function(n) \x7b n + 1 \x7d"]])]) := by
  refine ⟨rfl, ?_⟩
  exact closure_generation_shape toyEnv sampleClosureInput sampleClosureNode rfl

/-- C7: a parameter whose pattern is not a simple identifier binding does not
make generation fail: `js` still succeeds on the parsed `Closure`, and the
name list of the synthesized script skips exactly that parameter, keeping the
simple-identifier names around it in order. -/
theorem closure_param_omission (env : SynEnv) (ts : List Tok) (c : Closure env)
    (pre post : List env.FnArgT) (a : env.FnArgT)
    (h : parseClosure env ts = .ok (c, []))
    (hp : c.params = pre ++ a :: post)
    (ha : env.fnArgPatIdent a = none) :
    (∃ out, js env ts = .ok out)
    ∧ c.params.filterMap env.fnArgPatIdent
        = pre.filterMap env.fnArgPatIdent ++ post.filterMap env.fnArgPatIdent := by
  constructor
  · refine ⟨closureGen env c, ?_⟩
    simp [js, parse2Item, itemParse, h, Except.bind, bind, pure, Except.pure]
  · rw [hp]
    simp [List.filterMap_append, List.filterMap_cons, ha]

/-- C7 witness: in `((a, b): T, n: usize) => 0` the first parameter's pattern
is a tuple, not a simple identifier; generation still succeeds and the
synthesized name list is just `n`. -/
theorem closure_param_omission_witness :
    (∃ out, js toyEnv [Tok.group Delim.paren
        [Tok.group Delim.paren [Tok.ident "a", Tok.punct ',' Spacing.alone, Tok.ident "b"],
         Tok.punct ':' Spacing.alone, Tok.ident "T", Tok.punct ',' Spacing.alone,
         Tok.ident "n", Tok.punct ':' Spacing.alone, Tok.ident "usize"],
        Tok.punct '=' Spacing.joint, Tok.punct '>' Spacing.alone, Tok.lit "0"] = .ok out)
    ∧ ([[Tok.group Delim.paren [Tok.ident "a", Tok.punct ',' Spacing.alone, Tok.ident "b"],
         Tok.punct ':' Spacing.alone, Tok.ident "T"],
        [Tok.ident "n", Tok.punct ':' Spacing.alone, Tok.ident "usize"]] :
          List (List Tok)).filterMap toyEnv.fnArgPatIdent
        = ([] : List (List Tok)).filterMap toyEnv.fnArgPatIdent ++
          ([[Tok.ident "n", Tok.punct ':' Spacing.alone, Tok.ident "usize"]] :
            List (List Tok)).filterMap toyEnv.fnArgPatIdent := by
  exact closure_param_omission toyEnv _
    ⟨none,
     [[Tok.group Delim.paren [Tok.ident "a", Tok.punct ',' Spacing.alone, Tok.ident "b"],
       Tok.punct ':' Spacing.alone, Tok.ident "T"],
      [Tok.ident "n", Tok.punct ':' Spacing.alone, Tok.ident "usize"]],
     none, false, [Tok.lit "0"]⟩
    [] [[Tok.ident "n", Tok.punct ':' Spacing.alone, Tok.ident "usize"]]
    [Tok.group Delim.paren [Tok.ident "a", Tok.punct ',' Spacing.alone, Tok.ident "b"],
     Tok.punct ':' Spacing.alone, Tok.ident "T"]
    rfl rfl rfl

/-- C3 counterexample: the code generator does not run the Interpolation
Engine.  On `print(#name)` — the spec's own splice scenario — `js` emits
`qjs::eval("print ( # name )")`: the splice marker and its target are
stringified verbatim into the script literal, no `__scope.var0` placeholder
appears anywhere in the output (its placeholder list is empty), and no
capture list is produced, contradicting the claimed data flow. -/
theorem js_splice_not_interpolated_cex :
    js toyEnv spliceEvalInput
      = .ok (qjsPathToks ++ [Tok.ident "eval",
          Tok.group Delim.paren [strLit "print ( # name )"]])
    ∧ phVars (qjsPathToks ++ [Tok.ident "eval",
        Tok.group Delim.paren [strLit "print ( # name )"]]) = [] := by
  constructor
  · rfl
  · simp [qjsPathToks, strLit, escapeStr, phVars]

/-- C3 amended: `js` never applies the Interpolation Engine.  On the `Eval`
path the emitted call carries the verbatim stringification of the script
tokens as its literal (splice markers included) and, for a context-free
eval, the output contains no placeholder at all; on the `Closure` path the
emitted body likewise carries the verbatim stringification of the script
inside the synthesized `function(…) { … }` literal.  `interpolate` itself is
a standalone public function that `js` never invokes. -/
theorem js_stringifies_script_verbatim (env : SynEnv) (ts : List Tok) :
    (∀ ev : Eval, itemParse env ts = .ok (Item.eval ev, []) →
      js env ts = .ok (evalGen ev)
      ∧ Tok.group Delim.paren [strLit (tsToString ev.script)] ∈ evalGen ev
      ∧ (ev.context = none → phVars (evalGen ev) = []))
    ∧ (∀ c : Closure env, parseClosure env ts = .ok (c, []) →
      js env ts = .ok (closureGen env c)
      ∧ Tok.group Delim.brace (qjsPathToks ++ [Tok.ident "eval",
          Tok.group Delim.paren [strLit (closureScript
            (c.params.filterMap env.fnArgPatIdent) (tsToString c.script))]])
        ∈ closureGen env c) := by
  constructor
  · intro ev hev
    refine ⟨?_, ?_, ?_⟩
    · simp [js, parse2Item, hev, Except.bind, bind, pure, Except.pure]
    · cases hc : ev.context <;>
        simp [evalGen, hc]
    · intro hnone
      simp [evalGen, hnone, qjsPathToks, phVars, strLit]
  · intro c hc
    refine ⟨?_, ?_⟩
    · simp [js, parse2Item, itemParse, hc, Except.bind, bind, pure, Except.pure]
    · simp [closureGen, closureScript]

/-- C3 amended witness: the `print(#name)` input is classified `Eval` with
no context and the whole input as script, and `js` emits the verbatim
stringified literal with no placeholder. -/
theorem js_stringifies_script_verbatim_witness :
    js toyEnv spliceEvalInput = .ok (evalGen ⟨none, spliceEvalInput⟩)
    ∧ Tok.group Delim.paren [strLit (tsToString spliceEvalInput)]
        ∈ evalGen ⟨none, spliceEvalInput⟩
    ∧ ((⟨none, spliceEvalInput⟩ : Eval).context = none →
        phVars (evalGen ⟨none, spliceEvalInput⟩) = []) := by
  exact (js_stringifies_script_verbatim toyEnv spliceEvalInput).1 ⟨none, spliceEvalInput⟩ rfl

/-- Reduction of `Except.bind` on a success. -/
theorem except_bind_ok {ε α β : Type} (a : α) (f : α → Except ε β) :
    Except.bind (Except.ok a) f = f a := rfl

/-- Reduction of `Except.bind` on an error. -/
theorem except_bind_error {ε α β : Type} (e : ε) (f : α → Except ε β) :
    Except.bind (Except.error e) f = Except.error e := rfl

/-- Step equation of the loop: the empty stream. -/
theorem interpGo_nil {ε E : Type} (pe : List Tok → Except ε E) (arm : Option Tok)
    (vars : List (Variable E)) : interpGo pe [] arm vars = .ok ([], vars) := by
  simp [interpGo]

/-- Step equation of the loop: a standalone `#` arms the flag (dropping any
previously pending marker). -/
theorem interpGo_marker {ε E : Type} (pe : List Tok → Except ε E) (rest : List Tok)
    (arm : Option Tok) (vars : List (Variable E)) :
    interpGo pe (Tok.punct '#' Spacing.alone :: rest) arm vars
      = interpGo pe rest (some (Tok.punct '#' Spacing.alone)) vars := by
  simp [interpGo, isMarker]

/-- Step equation of the loop: an armed identifier substitutes a placeholder
and appends its capture, leaving the flag set. -/
theorem interpGo_ident_armed {ε E : Type} (pe : List Tok → Except ε E) (s : String)
    (rest : List Tok) (a : Tok) (vars : List (Variable E)) :
    interpGo pe (Tok.ident s :: rest) (some a) vars
      = Except.bind (interpGo pe rest (some a) (vars ++ [Variable.ident s]))
          (fun p => Except.ok (placeholder vars.length ++ p.1, p.2)) := by
  simp only [interpGo]
  rfl

/-- Step equation of the loop: an armed parenthesized group parses its
contents as an expression, substitutes a placeholder and appends the capture,
leaving the flag set. -/
theorem interpGo_paren_armed {ε E : Type} (pe : List Tok → Except ε E) (g rest : List Tok)
    (a : Tok) (vars : List (Variable E)) :
    interpGo pe (Tok.group Delim.paren g :: rest) (some a) vars
      = Except.bind (pe g) (fun ex =>
          Except.bind (interpGo pe rest (some a) (vars ++ [Variable.expr ex]))
            (fun p => Except.ok (placeholder vars.length ++ p.1, p.2))) := by
  simp only [interpGo]
  rfl

/-- Step equation of the loop: an unarmed group of any delimiter recurses
into its contents with the same accumulator and a fresh flag. -/
theorem interpGo_group_none {ε E : Type} (pe : List Tok → Except ε E) (d : Delim)
    (g rest : List Tok) (vars : List (Variable E)) :
    interpGo pe (Tok.group d g :: rest) none vars
      = Except.bind (interpGo pe g none vars) (fun p1 =>
          Except.bind (interpGo pe rest none p1.2)
            (fun p2 => Except.ok (Tok.group d p1.1 :: p2.1, p2.2))) := by
  cases d <;> (simp only [interpGo]; rfl)

/-- Step equation of the loop: an armed group whose delimiter is not a
parenthesis also falls into the plain-group arm — the pending marker is
neither re-emitted nor cleared. -/
theorem interpGo_group_other {ε E : Type} (pe : List Tok → Except ε E) (d : Delim)
    (g rest : List Tok) (a : Tok) (vars : List (Variable E)) (hd : d ≠ Delim.paren) :
    interpGo pe (Tok.group d g :: rest) (some a) vars
      = Except.bind (interpGo pe g none vars) (fun p1 =>
          Except.bind (interpGo pe rest (some a) p1.2)
            (fun p2 => Except.ok (Tok.group d p1.1 :: p2.1, p2.2))) := by
  cases d with
  | paren => exact absurd rfl hd
  | bracket => simp only [interpGo]; rfl
  | brace => simp only [interpGo]; rfl
  | bare => simp only [interpGo]; rfl

/-- Step equation of the loop: an unarmed identifier is emitted verbatim. -/
theorem interpGo_ident_unarmed {ε E : Type} (pe : List Tok → Except ε E) (s : String)
    (rest : List Tok) (vars : List (Variable E)) :
    interpGo pe (Tok.ident s :: rest) none vars
      = Except.bind (interpGo pe rest none vars)
          (fun p => Except.ok (Tok.ident s :: p.1, p.2)) := by
  simp only [interpGo]
  rfl

/-- Step equation of the loop: a non-marker punct falls into the catch-all
arm, which re-emits any pending marker, the punct itself, and disarms. -/
theorem interpGo_punct {ε E : Type} (pe : List Tok → Except ε E) (c : Char) (sp : Spacing)
    (rest : List Tok) (arm : Option Tok) (vars : List (Variable E))
    (hm : isMarker (Tok.punct c sp) = false) :
    interpGo pe (Tok.punct c sp :: rest) arm vars
      = Except.bind (interpGo pe rest none vars)
          (fun p => Except.ok (arm.toList ++ Tok.punct c sp :: p.1, p.2)) := by
  rw [interpGo, if_neg (by simp [hm])]
  · rfl
  all_goals nofun

/-- Step equation of the loop: a literal falls into the catch-all arm. -/
theorem interpGo_lit {ε E : Type} (pe : List Tok → Except ε E) (l : String)
    (rest : List Tok) (arm : Option Tok) (vars : List (Variable E)) :
    interpGo pe (Tok.lit l :: rest) arm vars
      = Except.bind (interpGo pe rest none vars)
          (fun p => Except.ok (arm.toList ++ Tok.lit l :: p.1, p.2)) := by
  simp only [interpGo]
  rfl

/-- Helper: inversion of the emit-prefix-and-continue bind shape. -/
theorem bind_ok_shape {ε E : Type} (x : Except ε (List Tok × List (Variable E)))
    (pref out : List Tok) (vars' : List (Variable E))
    (h : Except.bind x (fun p => Except.ok (pref ++ p.1, p.2)) = .ok (out, vars')) :
    ∃ out1 vars1, x = .ok (out1, vars1) ∧ out = pref ++ out1 ∧ vars' = vars1 := by
  cases x with
  | error e => rw [except_bind_error] at h; cases h
  | ok p =>
    obtain ⟨o, v⟩ := p
    rw [except_bind_ok] at h
    simp only [Except.ok.injEq, Prod.mk.injEq] at h
    exact ⟨o, v, rfl, h.1.symm, h.2.symm⟩

/-- Helper: the marker guard only accepts the alone-spaced `#` punct. -/
theorem isMarker_shape {t : Tok} (h : isMarker t = true) :
    t = Tok.punct '#' Spacing.alone := by
  cases t with
  | punct c sp =>
    simp only [isMarker, Bool.and_eq_true, decide_eq_true_eq] at h
    rw [h.1, h.2]
  | group d g => simp [isMarker] at h
  | ident s => simp [isMarker] at h
  | lit s => simp [isMarker] at h

/-- Helper: a scope-free token is not the `__scope` identifier. -/
theorem scopeFreeTok_ne {t : Tok} (h : scopeFreeTok t = true) :
    t ≠ Tok.ident "__scope" := by
  intro he
  subst he
  simp [scopeFreeTok] at h

/-- Helper: `scopeFreeList` on a cons. -/
theorem scopeFreeList_cons (t : Tok) (rest : List Tok) :
    scopeFreeList (t :: rest) = (scopeFreeTok t && scopeFreeList rest) := rfl

/-- Core invariant of the interpolation loop, by functional induction: a
successful run extends the capture accumulator in place (`vars' = vars ++ δ`)
and — on scope-free input, with the flag holding nothing but a `#` marker —
the placeholders substituted into the output are exactly
`var<|vars|>, …, var<|vars| + |δ| - 1>` in traversal order. -/
theorem interpGo_indexing {ε E : Type} (pe : List Tok → Except ε E)
    (ts : List Tok) (arm : Option Tok) (vars : List (Variable E)) :
    (arm = none ∨ ∃ sp, arm = some (Tok.punct '#' sp)) →
    ∀ (out : List Tok) (vars' : List (Variable E)),
      interpGo pe ts arm vars = .ok (out, vars') →
      ∃ δ, vars' = vars ++ δ ∧
        (scopeFreeList ts = true →
          phVars out = (List.range' vars.length δ.length).map
            (fun n => "var" ++ toString n)) := by
  induction ts, arm, vars using interpGo.induct pe with
  | case1 arm vars =>
    intro _ out vars' h
    rw [interpGo_nil] at h
    simp only [Except.ok.injEq, Prod.mk.injEq] at h
    refine ⟨[], by rw [← h.2]; simp, fun _ => ?_⟩
    rw [← h.1]
    simp [phVars]
  | case2 t rest arm vars ht ih =>
    intro _ out vars' h
    rcases isMarker_shape ht with rfl
    rw [interpGo_marker] at h
    obtain ⟨δ, hδ, hph⟩ := ih (Or.inr ⟨Spacing.alone, rfl⟩) out vars' h
    refine ⟨δ, hδ, fun hsf => hph ?_⟩
    rw [scopeFreeList_cons, Bool.and_eq_true] at hsf
    exact hsf.2
  | case3 rest vars s val hm ih =>
    intro harm out vars' h
    rw [interpGo_ident_armed] at h
    obtain ⟨out1, vars1, hrec, hout, hvars⟩ :=
      bind_ok_shape _ (placeholder vars.length) out vars' h
    obtain ⟨δ1, hδ1, hph1⟩ := ih harm out1 vars1 hrec
    refine ⟨Variable.ident s :: δ1, ?_, ?_⟩
    · rw [hvars, hδ1]
      simp
    · intro hsf
      rw [scopeFreeList_cons, Bool.and_eq_true] at hsf
      rw [hout, phVars_placeholder, hph1 hsf.2]
      simp [List.range'_succ]
  | case4 rest vars g val hm ih =>
    intro harm out vars' h
    rw [interpGo_paren_armed] at h
    cases hpe : pe g with
    | error e =>
      rw [hpe, except_bind_error] at h
      cases h
    | ok ex =>
      rw [hpe, except_bind_ok] at h
      obtain ⟨out1, vars1, hrec, hout, hvars⟩ :=
        bind_ok_shape _ (placeholder vars.length) out vars' h
      obtain ⟨δ1, hδ1, hph1⟩ := ih ex harm out1 vars1 hrec
      refine ⟨Variable.expr ex :: δ1, ?_, ?_⟩
      · rw [hvars, hδ1]
        simp
      · intro hsf
        rw [scopeFreeList_cons, Bool.and_eq_true] at hsf
        rw [hout, phVars_placeholder, hph1 hsf.2]
        simp [List.range'_succ]
  | case5 rest arm vars d g hnp hm ihg ihrest =>
    intro harm out vars' h
    have hstep : interpGo pe (Tok.group d g :: rest) arm vars
        = Except.bind (interpGo pe g none vars) (fun p1 =>
            Except.bind (interpGo pe rest arm p1.2)
              (fun p2 => Except.ok (Tok.group d p1.1 :: p2.1, p2.2))) := by
      rcases harm with rfl | ⟨sp, rfl⟩
      · exact interpGo_group_none pe d g rest vars
      · exact interpGo_group_other pe d g rest _ vars (fun hd => hnp _ hd rfl)
    rw [hstep] at h
    cases hrec1 : interpGo pe g none vars with
    | error e =>
      rw [hrec1, except_bind_error] at h
      cases h
    | ok p1 =>
      obtain ⟨inner, vars1⟩ := p1
      rw [hrec1, except_bind_ok] at h
      obtain ⟨out2, vars2, hrec2, hout, hvars⟩ :=
        bind_ok_shape _ [Tok.group d inner] out vars' h
      obtain ⟨δ1, hδ1, hph1⟩ := ihg (Or.inl rfl) inner vars1 hrec1
      obtain ⟨δ2, hδ2, hph2⟩ := ihrest vars1 harm out2 vars2 hrec2
      refine ⟨δ1 ++ δ2, ?_, ?_⟩
      · rw [hvars, hδ2, hδ1]
        simp
      · intro hsf
        rw [scopeFreeList_cons, Bool.and_eq_true] at hsf
        have hsg : scopeFreeList g = true := hsf.1
        rw [hout, show ([Tok.group d inner] ++ out2 : List Tok)
          = Tok.group d inner :: out2 from rfl]
        rw [phVars_group, hph1 hsg, hph2 hsf.2, hδ1]
        have hlen : (vars ++ δ1).length = vars.length + δ1.length := by simp
        rw [hlen, ← List.map_append]
        have hr := List.range'_append vars.length δ1.length δ2.length 1
        simp only [one_mul] at hr
        rw [hr]
        have hlen2 : δ2.length + δ1.length = (δ1 ++ δ2).length := by
          simp [Nat.add_comm]
        rw [hlen2]
  | case6 t rest arm vars hm hng hni hnpg ih =>
    intro harm out vars' h
    rcases harm with rfl | ⟨sp, rfl⟩
    · have hstep : interpGo pe (t :: rest) none vars
          = Except.bind (interpGo pe rest none vars)
              (fun p => Except.ok (t :: p.1, p.2)) := by
        cases t with
        | group d g => exact absurd rfl (hng d g)
        | ident s => exact interpGo_ident_unarmed pe s rest vars
        | punct c sp => exact interpGo_punct pe c sp rest none vars (by simpa using hm)
        | lit l => exact interpGo_lit pe l rest none vars
      rw [hstep] at h
      obtain ⟨out1, vars1, hrec, hout, hvars⟩ := bind_ok_shape _ [t] out vars' h
      obtain ⟨δ, hδ, hph⟩ := ih (Or.inl rfl) out1 vars1 hrec
      refine ⟨δ, by rw [hvars, hδ], ?_⟩
      intro hsf
      rw [scopeFreeList_cons, Bool.and_eq_true] at hsf
      rw [hout, show ([t] ++ out1 : List Tok) = t :: out1 from rfl,
        phVars_skip t out1 (fun d g he => hng d g he) (scopeFreeTok_ne hsf.1)]
      exact hph hsf.2
    · have hstep : interpGo pe (t :: rest) (some (Tok.punct '#' sp)) vars
          = Except.bind (interpGo pe rest none vars)
              (fun p => Except.ok (Tok.punct '#' sp :: t :: p.1, p.2)) := by
        cases t with
        | group d g => exact absurd rfl (hng d g)
        | ident s => exact (hni s (Tok.punct '#' sp) rfl rfl).elim
        | punct c sp' => exact interpGo_punct pe c sp' rest _ vars (by simpa using hm)
        | lit l => exact interpGo_lit pe l rest _ vars
      rw [hstep] at h
      obtain ⟨out1, vars1, hrec, hout, hvars⟩ :=
        bind_ok_shape _ (Tok.punct '#' sp :: [t]) out vars' h
      obtain ⟨δ, hδ, hph⟩ := ih (Or.inl rfl) out1 vars1 hrec
      refine ⟨δ, by rw [hvars, hδ], ?_⟩
      intro hsf
      rw [scopeFreeList_cons, Bool.and_eq_true] at hsf
      rw [hout, show ((Tok.punct '#' sp :: [t]) ++ out1 : List Tok)
          = Tok.punct '#' sp :: t :: out1 from rfl,
        phVars_skip (Tok.punct '#' sp) (t :: out1) (by intro d g he; cases he)
          (by intro he; cases he),
        phVars_skip t out1 (fun d g he => hng d g he) (scopeFreeTok_ne hsf.1)]
      exact hph hsf.2

/-- C8: interpolation indexing.  A successful `interpolate` run only ever
appends to the shared capture accumulator (`vars' = vars ++ δ`, the same
accumulator threading through nested groups), and on input containing no
`__scope` identifier of its own the placeholders substituted into the output
are exactly `var<|vars|>, …, var<|vars| + K - 1>` in left-to-right,
outer-to-inner traversal order, where `K = |δ|` is the number of new capture
entries — each placeholder's numeric suffix being the capture list's length
at its substitution.  In particular, starting from an empty accumulator the
placeholders are `var0 … var(K-1)`.  Textually identical splices are not
deduplicated: `# a # a` produces `var0` and `var1` and two separate capture
entries for the same identifier `a`. -/
theorem interpolate_indexing :
    (∀ (ε E : Type) (pe : List Tok → Except ε E) (ts : List Tok)
      (vars : List (Variable E)) (out : List Tok) (vars' : List (Variable E)),
      interpolate pe ts vars = .ok (out, vars') →
      ∃ δ, vars' = vars ++ δ ∧
        (scopeFreeList ts = true →
          phVars out = (List.range' vars.length δ.length).map
            (fun n => "var" ++ toString n)))
    ∧ interpolate peU [Tok.punct '#' Spacing.alone, Tok.ident "a",
        Tok.punct '#' Spacing.alone, Tok.ident "a"] []
      = .ok (placeholder 0 ++ placeholder 1,
          [Variable.ident "a", Variable.ident "a"]) := by
  constructor
  · intro ε E pe ts vars out vars' h
    exact interpGo_indexing pe ts none vars (Or.inl rfl) out vars' h
  · simp [interpolate, interpGo, isMarker, placeholder, peU,
      Except.bind, bind, pure, Except.pure]

/-- C8 witness: running the engine on `print(#name)` with an empty
accumulator grows the capture list by the single entry for `name` and emits
the single placeholder `var0` inside the rebuilt group. -/
theorem interpolate_indexing_witness :
    ∃ δ, [Variable.ident "name"] = ([] : List (Variable Unit)) ++ δ ∧
      (scopeFreeList spliceEvalInput = true →
        phVars [Tok.ident "print", Tok.group Delim.paren (placeholder 0)]
          = (List.range' (List.length ([] : List (Variable Unit))) δ.length).map
              (fun n => "var" ++ toString n)) := by
  exact interpolate_indexing.1 Unit Unit peU spliceEvalInput []
    [Tok.ident "print", Tok.group Delim.paren (placeholder 0)] [Variable.ident "name"]
    (by simp [interpolate, interpGo, isMarker, peU, placeholder, spliceEvalInput,
      Except.bind, bind, pure, Except.pure])

end RustQjs
